import Mathlib

/-!
Verification development for the tetraBB → NodeBB migration script
(`app.mjs`).  The JavaScript source is embedded shallowly: strings are
lists of characters (the legacy files are read as latin1, one byte per
character), JavaScript string primitives (`substring`, `slice`,
`indexOf`, `lastIndexOf`, `trim`, `padEnd`, `split`) are modelled with
their ECMAScript clamping/negative-index semantics, and the header-scan
`while` loop of `parseTetraPost` — whose termination is one of the
properties under study — is modelled with explicit fuel.
-/

namespace Tetra

/-- JavaScript strings, modelled as lists of (latin1 / BMP) characters. -/
abbrev Str := List Char

/-- Lift a Lean string literal into the model. -/
def str (s : String) : Str := s.data

/-- Index clamping used by `String.prototype.substring`: negative
values become `0`, values beyond the length are clamped to the length. -/
def substrIdx (len : Nat) (i : Int) : Nat := min i.toNat len

/-- `s.substring(a, b)` — both indices clamped to `[0, len]` and swapped
when `a > b` (this swap is what turns `substring(lineStart, -1)` into
the *prefix* `substring(0, lineStart)` in the header scan). -/
def jsSubstring (l : Str) (a b : Int) : Str :=
  let x := substrIdx l.length a
  let y := substrIdx l.length b
  (l.take (max x y)).drop (min x y)

/-- `s.substring(a)` — substring to the end of the string. -/
def jsSubstringFrom (l : Str) (a : Int) : Str :=
  l.drop (substrIdx l.length a)

/-- `s.indexOf(c, from)` for a one-character search string: index of the
first occurrence of `c` at or after `from`, or `-1`. -/
def jsIndexOf (l : Str) (c : Char) (start : Int) : Int :=
  match (l.drop start.toNat).findIdx? (· = c) with
  | some i => (start.toNat + i : Nat)
  | none => -1

/-- `s.lastIndexOf(c)` for a one-character search string: index of the
last occurrence of `c`, or `-1`. -/
def jsLastIndexOf (c : Char) : Str → Int
  | [] => -1
  | x :: xs =>
    let r := jsLastIndexOf c xs
    if 0 ≤ r then r + 1 else if x = c then 0 else -1

/-- Index resolution used by `String.prototype.slice`: negative values
count from the end of the string. -/
def sliceIdx (len : Nat) (i : Int) : Nat :=
  if i < 0 then ((len : Int) + i).toNat else min i.toNat len

/-- `s.slice(a, b)` (no index swapping; empty result when `a ≥ b`). -/
def jsSlice (l : Str) (a b : Int) : Str :=
  (l.take (sliceIdx l.length b)).drop (sliceIdx l.length a)

/-- `s.slice(a)` — slice to the end of the string. -/
def jsSliceFrom (l : Str) (a : Int) : Str :=
  l.drop (sliceIdx l.length a)

/-- The ECMAScript `\s` character class (WhiteSpace ∪ LineTerminator),
which is also the set trimmed by `String.prototype.trim`. -/
def jsWhitespace (c : Char) : Bool :=
  c.val = 9 ∨ c.val = 10 ∨ c.val = 11 ∨ c.val = 12 ∨ c.val = 13 ∨
  c.val = 32 ∨ c.val = 0xA0 ∨ c.val = 0x1680 ∨
  (0x2000 ≤ c.val ∧ c.val ≤ 0x200A) ∨
  c.val = 0x2028 ∨ c.val = 0x2029 ∨ c.val = 0x202F ∨
  c.val = 0x205F ∨ c.val = 0x3000 ∨ c.val = 0xFEFF

/-- `s.trim()`. -/
def jsTrim (l : Str) : Str :=
  ((l.dropWhile jsWhitespace).reverse.dropWhile jsWhitespace).reverse

/-- `s.padEnd(n, c)`. -/
def jsPadEnd (l : Str) (n : Nat) (c : Char) : Str :=
  l ++ List.replicate (n - l.length) c

/-- Accumulator pass behind `jsSplitChar`: `acc` holds the current
field in reverse. -/
def splitCharAux (sep : Char) : Str → Str → List Str
  | [], acc => [acc.reverse]
  | c :: cs, acc =>
    if c = sep then acc.reverse :: splitCharAux sep cs []
    else splitCharAux sep cs (c :: acc)

/-- `s.split(sep)` for a one-character separator. -/
def jsSplitChar (sep : Char) (l : Str) : List Str := splitCharAux sep l []

/-- The maximum NodeBB post length (`maxPostLength` in `app.mjs`). -/
def maxPostLength : Nat := 32000

/-- `splitContent(content)` from `app.mjs`: content no longer than
`maxPostLength` is returned whole; otherwise `splitEnd` is the last
newline inside the first `maxPostLength` characters (`-1` when there is
none, in which case the JavaScript negative-index `slice` semantics cut
off only the final character). -/
def splitContent (content : Str) : Str × Option Str :=
  if content.length ≤ maxPostLength then (content, none)
  else
    let splitEnd := jsLastIndexOf '\n' (jsSlice content 0 (maxPostLength : Nat))
    (jsSlice content 0 splitEnd, some (jsSliceFrom content splitEnd))

/-- The ECMAScript `\w` character class. -/
def wordChar (c : Char) : Bool :=
  ('A' ≤ c ∧ c ≤ 'Z') ∨ ('a' ≤ c ∧ c ≤ 'z') ∨ ('0' ≤ c ∧ c ≤ '9') ∨ c = '_'

/-- The ECMAScript `\d` character class. -/
def digitChar (c : Char) : Bool := '0' ≤ c ∧ c ≤ '9'

/-- The character class of the `isLatin` test `[\w\d\s.,\-@]`. -/
def latinChar (c : Char) : Bool :=
  wordChar c ∨ digitChar c ∨ jsWhitespace c ∨ c = '.' ∨ c = ',' ∨ c = '-' ∨ c = '@'

/-- The username-validity character class of `isUserNameValid`:
`['" \-+.*[\]0-9¿-῿Ⰰ-퟿\w]` (apostrophe is the
character with code 39). -/
def validUserChar (c : Char) : Bool :=
  c.val = 39 ∨ c.val = 34 ∨ c = ' ' ∨ c = '-' ∨ c = '+' ∨ c = '.' ∨ c = '*' ∨
  c = '[' ∨ c = ']' ∨ digitChar c ∨
  (0xBF ≤ c.val ∧ c.val ≤ 0x1FFF) ∨ (0x2C00 ≤ c.val ∧ c.val ≤ 0xD7FF) ∨ wordChar c

/-- Collapse maximal runs of characters satisfying `p` into the single
character `r` (the effect of `replace(/X+/g, r)`); the flag records
whether the previous character was part of a run. -/
def collapseRunsAux (p : Char → Bool) (r : Char) : Bool → Str → Str
  | _, [] => []
  | inRun, c :: cs =>
    if p c then
      if inRun then collapseRunsAux p r true cs
      else r :: collapseRunsAux p r true cs
    else c :: collapseRunsAux p r false cs

/-- `s.replace(/X+/g, r)` for a character class `X`. -/
def collapseRuns (p : Char → Bool) (r : Char) (l : Str) : Str :=
  collapseRunsAux p r false l

/-- The `trimTrailingDash` replacement (regex: a dash anchored at the
end of the string, global flag): at most one trailing dash is
removed. -/
def removeTrailingDash (l : Str) : Str :=
  if l.getLast? = some '-' then l.dropLast else l

/-- The `trimLeadingDash` replacement (regex: a dash anchored at the
start of the string, global flag): at most one leading dash is
removed. -/
def removeLeadingDash : Str → Str
  | '-' :: cs => cs
  | l => l

/-- `s.replace(/c/, '')` without the `g` flag: only the first character
satisfying `p` is removed. -/
def removeFirst (p : Char → Bool) : Str → Str
  | [] => []
  | c :: cs => if p c then cs else c :: removeFirst p cs

/-- `s.replace(/pat/, rep)` without the `g` flag for a literal pattern:
only the first occurrence is replaced. -/
def replaceFirstSeq (pat rep : Str) : Str → Str
  | [] => []
  | c :: cs =>
    if pat.isPrefixOf (c :: cs) then rep ++ (c :: cs).drop pat.length
    else c :: replaceFirstSeq pat rep cs

/-- `slugify(str)` from `app.mjs` (itself copied from NodeBB), with
`preserveCase` absent (falsy).  The regex-engine Unicode letter class
`\p{L}` is a parameter `L`; `toLocaleLowerCase` is modelled by
`Char.toLower` (exact on the ASCII range, where all concrete theorems
below evaluate it). -/
def slugify (L : Char → Bool) (s : Str) : Str :=
  if s = [] then []
  else
    let t := jsTrim s
    let t2 :=
      if t ≠ [] ∧ t.all latinChar then
        t.map (fun c =>
          if wordChar c ∨ jsWhitespace c ∨ digitChar c ∨ c = '-' ∨ c = '_' then c else '-')
      else
        t.map (fun c =>
          if L c ∨ jsWhitespace c ∨ digitChar c ∨ c = '-' ∨ c = '_' then c else '-')
    let t3 := t2.map Char.toLower
    let t4 := collapseRuns jsWhitespace '-' t3
    let t5 := collapseRuns (fun c => c = '-') '-' t4
    removeLeadingDash (removeTrailingDash t5)

/-- `isUserNameValid(name)` from `app.mjs`: nonempty and every
character in the validity class. -/
def isUserNameValid (name : Str) : Bool :=
  name ≠ [] ∧ name.all validUserChar

/-- `sanitizeUsername(username)` from `app.mjs`.  Note that the last
two `replace` calls of the fallback pipeline run without the `g` flag:
only the first comma and only the *first* remaining invalid character
are removed, while the `XRegExp.replace` call (with `g`) rewrites every
character outside letter/whitespace/digit/dash/underscore to a dash. -/
def sanitizeUsername (L : Char → Bool) (username : Str) : Str :=
  let userslug := slugify L username
  if isUserNameValid username ∧ userslug ≠ [] then username
  else
    let s1 := removeFirst (fun c => c = ',') username
    let s2 := replaceFirstSeq (str "&amp") (str "+") s1
    let s3 := s2.map (fun c =>
      if L c ∨ jsWhitespace c ∨ digitChar c ∨ c = '-' ∨ c = '_' then c else '-')
    removeFirst (fun c => ¬ validUserChar c) s3

/-- A Unicode-letter table that agrees with `\p{L}` on the ASCII range;
used only to instantiate the parameter `L` at concrete ASCII inputs. -/
def unicodeLetterAscii (c : Char) : Bool :=
  ('A' ≤ c ∧ c ≤ 'Z') ∨ ('a' ≤ c ∧ c ≤ 'z')

/-- The character class of the regex metacharacter `.` (everything but
the four ECMAScript line terminators). -/
def regexDotChar (c : Char) : Bool :=
  ¬ (c.val = 10 ∨ c.val = 13 ∨ c.val = 0x2028 ∨ c.val = 0x2029)

/-- One iteration bundle of the `while` loop of
`extractTagsFromSubject`; `lastTag` is always `0` in the source, so the
searches always restart from the beginning of the current subject. -/
def extractTagsAux : Nat → Str → List Str → Str × List Str
  | 0, s, tags => (s, tags)
  | fuel + 1, s, tags =>
    if s.contains '*' then
      let tagStart := jsIndexOf s '*' 0
      let tagEnd := jsIndexOf s '*' (tagStart + 1)
      if 0 < tagEnd then
        extractTagsAux fuel
          (jsSubstring s 0 tagStart ++ jsSubstringFrom s (tagEnd + 1))
          (tags ++ [jsSubstring s (tagStart + 1) tagEnd])
      else (s, tags)
    else (s, tags)

/-- `extractTagsFromSubject(subject)` from `app.mjs`: each iteration
that continues removes at least two characters, so `length + 1` units
of fuel can never run out. -/
def extractTagsFromSubject (subject : Str) : Str × List Str :=
  extractTagsAux (subject.length + 1) subject []

/-- The match of `kvMatcher = /^(?<key>[A-Z_]+)\>(?<value>.*)/`:
a maximal nonempty run of `[A-Z_]` followed by `>`; the value group
`.*` extends to the first line terminator (the line itself can contain
`\n` when the `substring(lineStart, -1)` quirk produced a prefix of the
whole data). -/
def kvMatch (line : Str) : Option (Str × Str) :=
  let key := line.takeWhile (fun c => ('A' ≤ c ∧ c ≤ 'Z') ∨ c = '_')
  let rest := line.drop key.length
  match rest with
  | '>' :: value => if key = [] then none else some (key, value.takeWhile regexDotChar)
  | _ => none

/-- The match of `tagMatcher = /^<!--(?<tag>.*)-->$/`: the anchors
force an exact decomposition and the `.*` group forbids line
terminators inside the tag. -/
def tagMatch (line : Str) : Option Str :=
  if 7 ≤ line.length ∧ (str "<!--").isPrefixOf line ∧ (str "-->").isSuffixOf line then
    let mid := (line.take (line.length - 3)).drop 4
    if mid.all regexDotChar then some mid else none
  else none

/-- The record produced by `parseTetraPost` (field `content` is always
assigned before the function returns, so it is modelled as a plain
string). -/
structure ParsedPost where
  isThreadStart : Bool := false
  previous : Option Str := none
  next : Option (List Str) := none
  subject : Option Str := none
  timestamp : Option Str := none
  email : Option Str := none
  username : Option Str := none
  content : Str := []
  tags : List Str := []
  deriving Repr, DecidableEq

/-- The mutable state of the header scan: the record under construction
plus the local variable `image`. -/
structure ScanAcc where
  post : ParsedPost := {}
  image : Option Str := none
  deriving Repr, DecidableEq

/-- The `switch (key)` of `parseTetraPost`: `IP_ADDRESS`, `PASSWORD`,
`LINKNAME`, `LINKURL` and unrecognized keys fall through to the default
case and leave the state unchanged. -/
def processKey (L : Char → Bool) (key value : Str) (acc : ScanAcc) : ScanAcc :=
  if key = str "SUBJECT" then
    let p := extractTagsFromSubject value
    { acc with post :=
      { acc.post with subject := some p.1, tags := acc.post.tags ++ p.2 } }
  else if key = str "POSTER" then
    { acc with post := { acc.post with username := some (sanitizeUsername L value) } }
  else if key = str "EMAIL" then
    { acc with post := { acc.post with email := some [] } }
  else if key = str "DATE" then
    { acc with post := { acc.post with timestamp := some (jsPadEnd value 13 '0') } }
  else if key = str "PREVIOUS" then
    { acc with post :=
      { acc.post with isThreadStart := value = [], previous := some (jsTrim value) } }
  else if key = str "NEXT" then
    let ids := (jsSplitChar ' ' (jsTrim value)).filter (fun s => s.length > 0)
    { acc with post := { acc.post with next := some ids } }
  else if key = str "IMAGE" then
    { acc with image := some (jsTrim value) }
  else acc

/-- The header-scan `while (true)` loop of `parseTetraPost`, with
explicit fuel.  The loop variable `lineEnd` is threaded (it starts at
`-1`); on `break` the current `lineStart` and the accumulated state are
returned; `none` means the fuel ran out before the loop broke. -/
def scanHeader (L : Char → Bool) (data : Str) :
    Nat → Int → ScanAcc → Option (Int × ScanAcc)
  | 0, _, _ => none
  | fuel + 1, lineEnd, acc =>
    let lineStart := lineEnd + 1
    let lineEnd2 := jsIndexOf data '\n' lineStart
    let line := jsSubstring data lineStart lineEnd2
    match kvMatch line with
    | none =>
      match tagMatch line with
      | none => some (lineStart, acc)
      | some t =>
        scanHeader L data fuel lineEnd2
          { acc with post := { acc.post with tags := acc.post.tags ++ [t] } }
    | some kv =>
      if kv.1 = [] then some (lineStart, acc)
      else scanHeader L data fuel lineEnd2 (processKey L kv.1 kv.2 acc)

/-- `parseTetraPost(data)` from `app.mjs`.  `L` is the regex engine's
`\p{L}` table and `td` the external `turndownService.turndown`
HTML→markdown collaborator.  The `IMAGE` fragment is appended before
the markdown pass exactly as in the source (including the malformed
`"</img>` tail); the guard is JS truthiness — `if (image)` — so a
processed `IMAGE` header whose trimmed value is the empty string (a
falsy value) appends nothing, just like an absent header. -/
def parseTetraPost (L : Char → Bool) (td : Str → Str) (fuel : Nat)
    (data : Str) : Option ParsedPost :=
  match scanHeader L data fuel (-1) {} with
  | none => none
  | some (lineStart, acc) =>
    let contentHtml := jsSubstringFrom data lineStart
    let contentAbs :=
      match acc.image with
      | some img =>
        if img = [] then contentHtml
        else
          contentHtml ++ str "<br /><br /> <img src=\"" ++ img ++
            str "\" alt=\"post image\"</img>"
      | none => contentHtml
    some { acc.post with content := td contentAbs }

/-- The topology mappings `tetraPid2nodePid` / `tetraPid2nodeTid`:
plain JS objects keyed by strings, modelled as association lists where
assignment prepends (so `List.lookup` sees the newest binding). -/
abbrev IdMap := List (Str × Nat)

/-- The property key a JS object lookup uses for `parsed.previous`:
the value `null` is coerced to the string "null". -/
def jsKeyOf : Option Str → Str
  | none => str "null"
  | some s => s

/-- JS truthiness of a numeric property read: both a missing entry
(`undefined`) and the number `0` are falsy. -/
def truthyNat : Option Nat → Option Nat
  | some v => if v = 0 then none else some v
  | none => none

/-- The parsed posts map built by the migration driver (legacy id →
parsed record); the promise/lazy wrapper is external and elided. -/
abbrev PostPaths := List (Str × ParsedPost)

/-- External collaborators of `preparePostForRequest` /
`migrateTetraPost`: the configured category id, the identity resolver
`getOrCreateUserId` (including its invalid-username → Anonymous
fallback, so it is modelled as total), and the turndown converter. -/
structure Config where
  catId : Nat
  resolveUid : Option Str → Nat
  turndown : Str → Str

/-- A NodeBB success response body: `response.tid`, `response.pid`,
`response.mainPid`. -/
structure NodeRes where
  tid : Nat
  pid : Nat
  mainPid : Nat
  deriving Repr, DecidableEq

/-- The shared mutable migration state: the two topology mappings, the
number of submissions made so far (indexing the response oracle), and
the trace of set-topic-tags requests issued by completion callbacks. -/
structure MigState where
  pidMap : IdMap := []
  tidMap : IdMap := []
  counter : Nat := 0
  tagPuts : List (Nat × List Str) := []
  deriving Repr, DecidableEq

/-- The request body assembled by `preparePostForRequest`. -/
structure PostBody where
  content : Str
  uid : Nat
  title : Option Str := none
  cid : Option Nat := none
  timestamp : Option Str := none
  toPid : Option Nat := none
  deriving Repr, DecidableEq

/-- The request target: `topics/` (create a topic) or `topics/tid`
(reply into topic `tid`). -/
inductive ReqPath where
  | createTopic
  | replyTopic (tid : Nat)
  deriving Repr, DecidableEq

/-- The `responseAction` callback chain, reified as the ordered list of
completion steps it performs.  A `migrateRest` step carries the cloned
parsed record and the remainder content; the closure receives the
actual `tetraPid` only when it runs, so `previous` is set by the
executor. -/
inductive RAction where
  | recordTopic
  | recordReply
  | migrateRest (parsed : ParsedPost) (rest : Str)
  | putTags (tags : List Str)
  deriving Repr, DecidableEq

/-- The value returned by `preparePostForRequest`. -/
structure ReqData where
  path : ReqPath
  body : PostBody
  next : Option (List Str)
  actions : List RAction
  deriving Repr, DecidableEq

/-- The errors the migration core can raise (response-status failures
of the external platform are not modelled: the oracle plays an
always-successful server).  `notIterable` is the TypeError raised by
`for (const nextPid of reqData.next)` when `next` is `undefined` or
`null`, `inOnUndefined` the TypeError of `nextPid in postPaths` when
`postPaths` is `undefined`, and `fuelRanOut` is the model's fuel
exhaustion. -/
inductive MigErr where
  | cannotFindTopic (prev : Option Str)
  | notIterable
  | inOnUndefined
  | fuelRanOut
  deriving Repr, DecidableEq

/-- The placeholder appended when the assembled content is shorter than
8 characters. -/
def placeholderText : Str :=
  str "\n*Platzhalter (Migrierter Post hatte einen zu kurzen Inhalt)*"

/-- `preparePostForRequest(parsed)` from `app.mjs`, over the state of
the two topology mappings. -/
def preparePostForRequest (cfg : Config) (st : MigState) (parsed : ParsedPost) :
    Except MigErr ReqData :=
  let uid := cfg.resolveUid parsed.username
  let start :=
    if parsed.isThreadStart then
      Except.ok (ReqPath.createTopic, RAction.recordTopic,
        PostBody.mk parsed.content uid parsed.subject (some cfg.catId)
          parsed.timestamp none)
    else
      match truthyNat (List.lookup (jsKeyOf parsed.previous) st.tidMap) with
      | none => Except.error (MigErr.cannotFindTopic parsed.previous)
      | some tid =>
        let toPid := truthyNat (List.lookup (jsKeyOf parsed.previous) st.pidMap)
        let content2 :=
          match parsed.subject with
          | some subj =>
            if subj = [] then parsed.content
            else cfg.turndown subj ++ str "\n" ++ parsed.content
          | none => parsed.content
        Except.ok (ReqPath.replyTopic tid, RAction.recordReply,
          PostBody.mk content2 uid none none parsed.timestamp toPid)
  match start with
  | Except.error e => Except.error e
  | Except.ok (path, base, post) =>
    let c1 :=
      if post.content.length < 8 then post.content ++ placeholderText
      else post.content
    let sp := splitContent c1
    let acts1 := [base]
    let acts2 :=
      match sp.2 with
      | some rest => if rest = [] then acts1 else acts1 ++ [RAction.migrateRest parsed rest]
      | none => acts1
    let acts3 :=
      if parsed.tags.length > 0 then acts2 ++ [RAction.putTags parsed.tags]
      else acts2
    Except.ok (ReqData.mk path { post with content := sp.1 } parsed.next acts3)

/-- The body of the two recording callbacks: a topic-start records
`response.tid` / `response.mainPid`, a reply records `response.tid` /
`response.pid`, in both cases under the legacy id `tetraPid`. -/
def applyRecord (isTopic : Bool) (tetraPid : Str) (res : NodeRes) (st : MigState) :
    MigState :=
  if isTopic then
    { st with tidMap := (tetraPid, res.tid) :: st.tidMap,
              pidMap := (tetraPid, res.mainPid) :: st.pidMap }
  else
    { st with tidMap := (tetraPid, res.tid) :: st.tidMap,
              pidMap := (tetraPid, res.pid) :: st.pidMap }

/-- Run the reified `responseAction` chain in order; an error from a
recursive continuation migration aborts the remaining steps, exactly as
a thrown exception would.  One divergence from the source is recorded
here rather than modelled: when a post has both a continuation rest and
tags, the JS tags wrapper calls `prevAction(res)` without awaiting the
returned promise before issuing the tags PUT, so the PUT races the
continuation migration and a rejection from the continuation is not
propagated through the wrapper.  This model sequentializes the chain
(continuation first, then the PUT) and propagates the error; every
theorem below that exercises a continuation does so with an empty tags
list, where the two semantics agree. -/
def runActions
    (mig : Option PostPaths → Str → ParsedPost → MigState → MigState × Option MigErr)
    (tetraPid : Str) (res : NodeRes) :
    List RAction → MigState → MigState × Option MigErr
  | [], st => (st, none)
  | a :: rest, st =>
    match a with
    | RAction.recordTopic =>
      runActions mig tetraPid res rest (applyRecord true tetraPid res st)
    | RAction.recordReply =>
      runActions mig tetraPid res rest (applyRecord false tetraPid res st)
    | RAction.migrateRest parsed restC =>
      let ext : ParsedPost :=
        { parsed with isThreadStart := false, previous := some tetraPid,
                      content := restC, subject := none, next := none }
      match mig none tetraPid ext st with
      | (st2, none) => runActions mig tetraPid res rest st2
      | (st2, some e) => (st2, some e)
    | RAction.putTags tags =>
      runActions mig tetraPid res rest
        { st with tagPuts := st.tagPuts ++ [(res.tid, tags)] }

/-- The `for (const nextPid of reqData.next)` loop of
`migrateTetraPost`: ids absent from `postPaths` are skipped, the rest
are migrated recursively; reading `nextPid in postPaths` with
`postPaths === undefined` raises. -/
def runNext
    (mig : Option PostPaths → Str → ParsedPost → MigState → MigState × Option MigErr)
    (pp : Option PostPaths) :
    List Str → MigState → MigState × Option MigErr
  | [], st => (st, none)
  | pid :: rest, st =>
    match pp with
    | none => (st, some MigErr.inOnUndefined)
    | some paths =>
      match List.lookup pid paths with
      | none => runNext mig pp rest st
      | some parsed =>
        match mig pp pid parsed st with
        | (st2, none) => runNext mig pp rest st2
        | (st2, some e) => (st2, some e)

/-- `migrateTetraPost(tetraPid, parsed, postPaths)` from `app.mjs`,
with explicit fuel bounding the recursion depth and a response oracle
playing the (always successful) NodeBB server: submission `i` of the
run receives `oracle i`.  The split-continuation recursion inside the
`responseAction` chain calls back with `postPaths` undefined, exactly
as the two-argument call in the source does. -/
def migrateTetraPost (cfg : Config) (oracle : Nat → NodeRes) :
    Nat → Option PostPaths → Str → ParsedPost → MigState →
    MigState × Option MigErr
  | 0, _, _, _, st => (st, some MigErr.fuelRanOut)
  | fuel + 1, pp, tetraPid, parsed, st =>
    match preparePostForRequest cfg st parsed with
    | Except.error e => (st, some e)
    | Except.ok req =>
      let res := oracle st.counter
      let st1 := { st with counter := st.counter + 1 }
      match runActions (migrateTetraPost cfg oracle fuel) tetraPid res req.actions st1 with
      | (st2, some e) => (st2, some e)
      | (st2, none) =>
        match req.next with
        | none => (st2, some MigErr.notIterable)
        | some ids => runNext (migrateTetraPost cfg oracle fuel) pp ids st2

/-- The eligibility gate of the main migration loop (the condition that
throws `Cannot be migrated yet`): a post is skipped for now unless it
is a thread start or its predecessor is in the post-id mapping, and it
is also skipped when it was already migrated itself. -/
def gateSkips (pidMap : IdMap) (tetraPid : Str) (p : ParsedPost) : Bool :=
  !(p.isThreadStart || (List.lookup (jsKeyOf p.previous) pidMap).isSome) ||
    (List.lookup tetraPid pidMap).isSome

/-! ### Lemmas about the JavaScript slice primitives and `splitContent` -/

lemma jsSlice_zero_nat (l : Str) (n : Nat) : jsSlice l 0 (n : Int) = l.take n := by
  have h1 : sliceIdx l.length 0 = 0 := by simp [sliceIdx]
  have h2 : sliceIdx l.length (n : Int) = min n l.length := by
    simp [sliceIdx]
  rw [jsSlice, h1, h2, List.drop_zero, List.take_eq_take]
  omega

lemma jsSliceFrom_nat (l : Str) (n : Nat) : jsSliceFrom l (n : Int) = l.drop n := by
  have h2 : sliceIdx l.length (n : Int) = min n l.length := by simp [sliceIdx]
  rw [jsSliceFrom, h2]
  rcases Nat.le_total n l.length with h | h
  · rw [min_eq_left h]
  · rw [min_eq_right h, List.drop_eq_nil_of_le h, List.drop_eq_nil_of_le le_rfl]

lemma jsSlice_zero_neg_one (l : Str) : jsSlice l 0 (-1) = l.take (l.length - 1) := by
  have h1 : sliceIdx l.length 0 = 0 := by simp [sliceIdx]
  have h2 : sliceIdx l.length (-1) = l.length - 1 := by
    simp [sliceIdx]
    omega
  rw [jsSlice, h1, h2, List.drop_zero]

lemma jsSliceFrom_neg_one (l : Str) : jsSliceFrom l (-1) = l.drop (l.length - 1) := by
  have h2 : sliceIdx l.length (-1) = l.length - 1 := by
    simp [sliceIdx]
    omega
  rw [jsSliceFrom, h2]

lemma jsSlice_append_sliceFrom (l : Str) (e : Int) :
    jsSlice l 0 e ++ jsSliceFrom l e = l := by
  have h1 : sliceIdx l.length 0 = 0 := by simp [sliceIdx]
  rw [jsSlice, jsSliceFrom, h1, List.drop_zero, List.take_append_drop]

lemma jsLastIndexOf_of_not_mem {c : Char} {l : Str} (h : c ∉ l) :
    jsLastIndexOf c l = -1 := by
  induction l with
  | nil => rfl
  | cons x xs ih =>
    rw [List.mem_cons, not_or] at h
    have hxc : ¬ x = c := fun hx => h.1 hx.symm
    simp [jsLastIndexOf, ih h.2, hxc]

lemma jsLastIndexOf_nonneg_of_mem {c : Char} {l : Str} (h : c ∈ l) :
    0 ≤ jsLastIndexOf c l := by
  induction l with
  | nil => simp at h
  | cons x xs ih =>
    simp only [jsLastIndexOf]
    by_cases hr : 0 ≤ jsLastIndexOf c xs
    · rw [if_pos hr]; omega
    · rw [if_neg hr]
      rcases List.mem_cons.mp h with h1 | h1
      · rw [if_pos h1.symm]
      · exact absurd (ih h1) hr

lemma jsLastIndexOf_getElem {c : Char} :
    ∀ {l : Str} {k : Nat}, jsLastIndexOf c l = (k : Int) → l[k]? = some c := by
  intro l
  induction l with
  | nil => intro k h; simp [jsLastIndexOf] at h
  | cons x xs ih =>
    intro k h
    simp only [jsLastIndexOf] at h
    by_cases hr : 0 ≤ jsLastIndexOf c xs
    · rw [if_pos hr] at h
      obtain ⟨m, hm⟩ := Int.eq_ofNat_of_zero_le hr
      have hk : k = m + 1 := by omega
      subst hk
      simpa using ih hm
    · rw [if_neg hr] at h
      by_cases hx : x = c
      · rw [if_pos hx] at h
        have hk : k = 0 := by omega
        subst hk
        simp [hx]
      · rw [if_neg hx] at h; omega

lemma jsLastIndexOf_spec {c : Char} :
    ∀ {l : Str} {k : Nat}, l[k]? = some c → (∀ j, k < j → l[j]? ≠ some c) →
      jsLastIndexOf c l = (k : Int) := by
  intro l
  induction l with
  | nil => intro k h; simp at h
  | cons x xs ih =>
    intro k hk hmax
    match k with
    | 0 =>
      have hx : x = c := by simpa using hk
      have hnot : c ∉ xs := by
        rw [List.mem_iff_getElem?]
        rintro ⟨n, hn⟩
        exact hmax (n + 1) (by omega) (by simpa using hn)
      simp only [jsLastIndexOf, jsLastIndexOf_of_not_mem hnot]
      rw [if_neg (by omega), if_pos hx]
      simp
    | k + 1 =>
      have hk' : xs[k]? = some c := by simpa using hk
      have hmax' : ∀ j, k < j → xs[j]? ≠ some c := by
        intro j hj
        have := hmax (j + 1) (by omega)
        simpa using this
      have := ih hk' hmax'
      simp only [jsLastIndexOf]
      rw [if_pos (by omega)]
      omega

lemma splitContent_of_le {l : Str} (h : l.length ≤ maxPostLength) :
    splitContent l = (l, none) := by
  rw [splitContent, if_pos h]

lemma splitContent_roundtrip_of_split {l p r : Str}
    (h : splitContent l = (p, some r)) : p ++ r = l := by
  by_cases hl : l.length ≤ maxPostLength
  · rw [splitContent_of_le hl] at h
    simp at h
  · rw [splitContent, if_neg hl] at h
    simp only [Prod.mk.injEq, Option.some.injEq] at h
    rw [← h.1, ← h.2]
    exact jsSlice_append_sliceFrom l _

lemma splitContent_of_newline {l : Str} {k : Nat} (hl : maxPostLength < l.length)
    (hk : k < maxPostLength) (hc : l[k]? = some '\n')
    (hlast : ∀ j, k < j → j < maxPostLength → l[j]? ≠ some '\n') :
    splitContent l = (l.take k, some (l.drop k)) := by
  have htake : jsSlice l 0 ((maxPostLength : Nat) : Int) = l.take maxPostLength :=
    jsSlice_zero_nat l maxPostLength
  have hidx : jsLastIndexOf '\n' (l.take maxPostLength) = (k : Int) := by
    apply jsLastIndexOf_spec
    · rw [List.getElem?_take_of_lt hk]; exact hc
    · intro j hj
      by_cases hjm : j < maxPostLength
      · rw [List.getElem?_take_of_lt hjm]; exact hlast j hj hjm
      · rw [List.getElem?_eq_none_iff.mpr]
        · simp
        · simp only [List.length_take]; omega
  rw [splitContent, if_neg (by omega)]
  simp only [htake, hidx, jsSlice_zero_nat, jsSliceFrom_nat]

lemma getElem?_rep_nl_rep (x y : Char) (a b : Nat) (j : Nat) :
    (List.replicate a x ++ '\n' :: List.replicate b y)[j]? =
      (if j < a then some x else if j = a then some '\n'
       else if j < a + 1 + b then some y else none) := by
  rcases Nat.lt_or_ge j a with h | h
  · rw [List.getElem?_append_left (by simpa using h)]
    simp only [List.getElem?_replicate]
    rw [if_pos h, if_pos h]
  · rw [List.getElem?_append_right (by simpa using h)]
    simp only [List.length_replicate]
    rcases Nat.eq_or_lt_of_le h with h1 | h1
    · rw [show j - a = 0 from by omega]
      simp only [List.getElem?_cons_zero]
      rw [if_neg (by omega), if_pos (by omega)]
    · rw [show j - a = (j - a - 1) + 1 from by omega]
      simp only [List.getElem?_cons_succ, List.getElem?_replicate]
      split_ifs <;> first | rfl | omega

lemma splitContent_single_newline {x y : Char} {a b : Nat}
    (hy : y ≠ '\n') (ha : a < maxPostLength)
    (hab : maxPostLength < a + 1 + b) :
    splitContent (List.replicate a x ++ '\n' :: List.replicate b y) =
      (List.replicate a x, some ('\n' :: List.replicate b y)) := by
  set l := List.replicate a x ++ '\n' :: List.replicate b y with hldef
  have hlen : l.length = a + 1 + b := by
    simp [hldef, List.length_append, List.length_replicate]
    omega
  have hget : ∀ j : Nat, l[j]? =
      if j < a then some x else if j = a then some '\n'
      else if j < a + 1 + b then some y else none := by
    intro j
    rw [hldef]
    exact getElem?_rep_nl_rep x y a b j
  have h1 : splitContent l = (l.take a, some (l.drop a)) := by
    apply splitContent_of_newline (by omega) ha
    · rw [hget]
      rw [if_neg (by omega), if_pos rfl]
    · intro j hj hjm
      rw [hget, if_neg (by omega), if_neg (by omega)]
      by_cases h3 : j < a + 1 + b
      · rw [if_pos h3]
        simp [hy]
      · rw [if_neg h3]
        simp
  have htake : l.take a = List.replicate a x := by
    rw [hldef]
    have h := List.take_left (List.replicate a x) ('\n' :: List.replicate b y)
    rw [List.length_replicate] at h
    exact h
  have hdrop : l.drop a = '\n' :: List.replicate b y := by
    rw [hldef]
    have h := List.drop_left (List.replicate a x) ('\n' :: List.replicate b y)
    rw [List.length_replicate] at h
    exact h
  rw [h1, htake, hdrop]

/-! ### Claims C2 and C3: the content splitter -/

/-- C2 (amended): for every content string, (i) content of length at
most `maxPostLength` is returned unchanged with no remainder, (ii) when
a remainder is produced, primary and remainder concatenate back to the
original content, and (iii) the cut sits on a newline (the remainder
starts with the newline character) *provided the first `maxPostLength`
characters contain a newline at all — without one, the JavaScript
negative-index `slice` semantics silently cut off exactly the final
character instead, which refutes the unconditional claim*. -/
theorem C2_splitContent_roundtrip (l : Str) :
    (l.length ≤ maxPostLength → splitContent l = (l, none)) ∧
    (∀ p r, splitContent l = (p, some r) → p ++ r = l) ∧
    (∀ p r, splitContent l = (p, some r) → '\n' ∈ l.take maxPostLength →
      r.head? = some '\n') := by
  refine ⟨splitContent_of_le, fun p r h => splitContent_roundtrip_of_split h, ?_⟩
  intro p r h hmem
  by_cases hl : l.length ≤ maxPostLength
  · rw [splitContent_of_le hl] at h
    simp at h
  · rw [splitContent, if_neg hl] at h
    simp only [Prod.mk.injEq, Option.some.injEq] at h
    have hmem' : '\n' ∈ jsSlice l 0 ((maxPostLength : Nat) : Int) := by
      rw [jsSlice_zero_nat]
      exact hmem
    have he0 : 0 ≤ jsLastIndexOf '\n' (jsSlice l 0 ((maxPostLength : Nat) : Int)) :=
      jsLastIndexOf_nonneg_of_mem hmem'
    obtain ⟨m, hm⟩ := Int.eq_ofNat_of_zero_le he0
    have hg : (jsSlice l 0 ((maxPostLength : Nat) : Int))[m]? = some '\n' :=
      jsLastIndexOf_getElem hm
    rw [jsSlice_zero_nat] at hg
    have hmlt : m < maxPostLength := by
      by_contra hge
      rw [List.getElem?_eq_none_iff.mpr] at hg
      · simp at hg
      · simp only [List.length_take]
        omega
    have hgl : l[m]? = some '\n' := by
      rw [List.getElem?_take_of_lt hmlt] at hg
      exact hg
    rw [← h.2, hm, jsSliceFrom_nat, List.head?_drop]
    exact hgl

/-- Witness for C2: content `"a\nb"` is short and returned whole;
content `replicate 10 'a' ++ '\n' :: replicate 32000 'b'` (length
42011 − 10000 = 32011 > 32000, with its newline at offset 10) splits,
concatenates back, and its remainder starts with the newline. -/
theorem C2_splitContent_roundtrip_witness :
    splitContent (str "a\nb") = (str "a\nb", none) ∧
    List.replicate 10 'a' ++ ('\n' :: List.replicate 32000 'b') =
      List.replicate 10 'a' ++ '\n' :: List.replicate 32000 'b' ∧
    ('\n' :: List.replicate 32000 'b').head? = some '\n' := by
  have h1 := (C2_splitContent_roundtrip (str "a\nb")).1 (by decide)
  have hsplit : splitContent (List.replicate 10 'a' ++ '\n' :: List.replicate 32000 'b') =
      (List.replicate 10 'a', some ('\n' :: List.replicate 32000 'b')) :=
    splitContent_single_newline (by decide) (by decide) (by decide)
  have hmem : '\n' ∈ (List.replicate 10 'a' ++ '\n' :: List.replicate 32000 'b').take maxPostLength := by
    rw [List.mem_iff_getElem?]
    refine ⟨10, ?_⟩
    rw [List.getElem?_take_of_lt (by decide), getElem?_rep_nl_rep]
    decide
  have h2 := (C2_splitContent_roundtrip _).2.1 _ _ hsplit
  have h3 := (C2_splitContent_roundtrip _).2.2 _ _ hsplit hmem
  exact ⟨h1, h2, h3⟩

/-- Counterexample to C2 as stated: content of 32001 letters `a`
without any newline is split (a remainder is produced), but the cut is
not at a newline boundary — primary is the first 32000 characters and
the remainder is the single final `a`. -/
theorem C2_counterexample :
    splitContent (List.replicate 32001 'a') =
      (List.replicate 32000 'a', some ['a']) ∧
    (['a'] : Str).head? ≠ some '\n' := by
  constructor
  · have hlen : (List.replicate 32001 'a' : Str).length = 32001 := by
      rw [List.length_replicate]
    rw [splitContent, if_neg (by rw [hlen]; norm_num [maxPostLength])]
    have h1 : jsSlice (List.replicate 32001 'a') 0 ((maxPostLength : Nat) : Int) =
        List.replicate 32000 'a' := by
      rw [jsSlice_zero_nat, List.take_replicate]
      norm_num [maxPostLength]
    have h2 : jsLastIndexOf '\n' (List.replicate 32000 'a' : Str) = -1 := by
      apply jsLastIndexOf_of_not_mem
      intro hm
      have := List.eq_of_mem_replicate hm
      simp at this
    simp only [h1, h2]
    rw [jsSlice_zero_neg_one, jsSliceFrom_neg_one, hlen]
    rw [List.take_replicate, List.drop_replicate]
    norm_num
  · decide

/-- C3: for content longer than `maxPostLength` whose last newline
inside the first `maxPostLength` characters sits at offset `k`,
`splitContent` cuts exactly there: primary is `content[0:k)` (length
`k`) and the remainder is `content[k:]` (length `length − k`). -/
theorem C3_splitContent_cut (l : Str) (k : Nat)
    (hl : maxPostLength < l.length) (hk : k < maxPostLength)
    (hc : l[k]? = some '\n')
    (hlast : ∀ j, k < j → j < maxPostLength → l[j]? ≠ some '\n') :
    splitContent l = (l.take k, some (l.drop k)) ∧
    (l.take k).length = k ∧ (l.drop k).length = l.length - k := by
  refine ⟨splitContent_of_newline hl hk hc hlast, ?_, ?_⟩
  · rw [List.length_take]
    omega
  · rw [List.length_drop]

/-- Witness for C3 at the example scenario of the claim: content of
length 40000 whose last newline before offset 32000 sits at offset
31800 yields a primary of length 31800 and a remainder of length
8200. -/
theorem C3_splitContent_cut_witness :
    splitContent (List.replicate 31800 'a' ++ '\n' :: List.replicate 8199 'b') =
      ((List.replicate 31800 'a' ++ '\n' :: List.replicate 8199 'b').take 31800,
       some ((List.replicate 31800 'a' ++ '\n' :: List.replicate 8199 'b').drop 31800)) ∧
    ((List.replicate 31800 'a' ++ '\n' :: List.replicate 8199 'b').take 31800).length = 31800 ∧
    ((List.replicate 31800 'a' ++ '\n' :: List.replicate 8199 'b').drop 31800).length = 8200 := by
  have hlen : (List.replicate 31800 'a' ++ '\n' :: List.replicate 8199 'b' : Str).length = 40000 := by
    rw [List.length_append, List.length_cons, List.length_replicate, List.length_replicate]
  have h := C3_splitContent_cut
    (List.replicate 31800 'a' ++ '\n' :: List.replicate 8199 'b') 31800
    (by rw [hlen]; norm_num [maxPostLength])
    (by norm_num [maxPostLength])
    (by rw [getElem?_rep_nl_rep]; norm_num)
    (by
      intro j hj hjm
      rw [getElem?_rep_nl_rep]
      rw [if_neg (by omega), if_neg (by omega),
        if_pos (by norm_num [maxPostLength] at hjm; omega)]
      decide)
  refine ⟨h.1, h.2.1, ?_⟩
  rw [h.2.2, hlen]

/-! ### Concrete fixtures for witnesses and counterexamples -/

/-- A concrete configuration: category 5, every username resolving to
user id 1, turndown modelled as the identity conversion. -/
def cfgEx : Config := { catId := 5, resolveUid := fun _ => 1, turndown := id }

/-- A state in which legacy post "42" is already migrated as topic 3
with post 7. -/
def stEx : MigState := { pidMap := [(str "42", 7)], tidMap := [(str "42", 3)] }

/-- A parsed reply to legacy post "42" carrying one tag. -/
def replyEx : ParsedPost :=
  { isThreadStart := false, previous := some (str "42"),
    content := str "hello world!", tags := [str "lep"], next := some [] }

/-- A response oracle returning distinct nonzero ids per submission. -/
def oracleEx : Nat → NodeRes :=
  fun i => { tid := 10 + i, pid := 20 + i, mainPid := 30 + i }

/-! ### Claim C5: idempotence of `sanitizeUsername` -/

lemma sanitizeUsername_of_valid (L : Char → Bool) (u : Str)
    (h1 : isUserNameValid u = true) (h2 : slugify L u ≠ []) :
    sanitizeUsername L u = u := by
  simp only [sanitizeUsername]
  rw [if_pos ⟨h1, h2⟩]

/-- Counterexample to C5 as stated: the final `replace` of the fallback
pipeline runs without the `g` flag, so only the first invalid character
is removed per application.  Sanitizing `"a\t\t"` yields `"a\t"`
(still invalid), and sanitizing that yields `"a"`. -/
theorem C5_counterexample :
    sanitizeUsername unicodeLetterAscii
        (sanitizeUsername unicodeLetterAscii (str "a\t\t")) ≠
      sanitizeUsername unicodeLetterAscii (str "a\t\t") ∧
    sanitizeUsername unicodeLetterAscii (str "a\t\t") = str "a\t" ∧
    sanitizeUsername unicodeLetterAscii (str "a\t") = str "a" := by
  refine ⟨by decide, by decide, by decide⟩

/-- C5 (amended): `sanitizeUsername` is idempotent on every input whose
sanitized form passes the username-validity check with a nonempty slug
— then the second application takes the identity branch.  (On inputs
whose sanitized form still contains an invalid character, a second
application strips one more character, refuting unrestricted
idempotence.) -/
theorem C5_sanitize_idempotent_on_valid (L : Char → Bool) (x : Str)
    (h1 : isUserNameValid (sanitizeUsername L x) = true)
    (h2 : slugify L (sanitizeUsername L x) ≠ []) :
    sanitizeUsername L (sanitizeUsername L x) = sanitizeUsername L x :=
  sanitizeUsername_of_valid L (sanitizeUsername L x) h1 h2

/-- Witness for C5 at the input `"a,b"` (sanitized once to `"ab"`,
which is valid, so a second sanitization is the identity). -/
theorem C5_sanitize_idempotent_on_valid_witness :
    isUserNameValid (sanitizeUsername unicodeLetterAscii (str "a,b")) = true ∧
    slugify unicodeLetterAscii (sanitizeUsername unicodeLetterAscii (str "a,b")) ≠ [] ∧
    sanitizeUsername unicodeLetterAscii
        (sanitizeUsername unicodeLetterAscii (str "a,b")) =
      sanitizeUsername unicodeLetterAscii (str "a,b") :=
  ⟨by decide, by decide,
    C5_sanitize_idempotent_on_valid unicodeLetterAscii (str "a,b")
      (by decide) (by decide)⟩

/-! ### Claim C6: tag extraction from the subject -/

/-- Counterexample to C6 as stated: removing `*urgent*` from
`"Hello *urgent* world"` leaves both surrounding spaces in place, so
the displayed subject is `"Hello  world"` (two spaces), not
`"Hello world"`. -/
theorem C6_counterexample :
    (extractTagsFromSubject (str "Hello *urgent* world")).1 ≠ str "Hello world" ∧
    (extractTagsFromSubject (str "Hello *urgent* world")).1 = str "Hello  world" := by
  refine ⟨by decide, by decide⟩

/-- C6 (amended): parsing a record whose `SUBJECT` header value is
`"Hello *urgent* world"` yields the displayed subject
`"Hello  world"` — the delimiter-wrapped token is removed together
with the markers but neither surrounding space is collapsed — and the
tags list `["urgent"]`; this holds for every letter table and turndown
collaborator since neither is consulted. -/
theorem C6_subject_tag_extraction (L : Char → Bool) (td : Str → Str) :
    (parseTetraPost L td 4 (str "SUBJECT>Hello *urgent* world\n\nbody")).map
        (fun p => (p.subject, p.tags)) =
      some (some (str "Hello  world"), [str "urgent"]) ∧
    extractTagsFromSubject (str "Hello *urgent* world") =
      (str "Hello  world", [str "urgent"]) := by
  exact ⟨rfl, rfl⟩

/-! ### Claims C4 and C9: termination of the header scan

When the scan reaches a position after which the data contains no
further newline, `lineEnd` becomes `-1` and
`substring(lineStart, -1)` — by the argument-swapping semantics of
`substring` — returns the *prefix* of the whole data before
`lineStart`.  If the data starts with a `KEY>value` line, that prefix
matches the key-value regex, the loop `continue`s, and the next
iteration restarts at `lineStart = lineEnd + 1 = 0`: the scan cycles
between the two states forever. -/

lemma scanHeader_hello_cycle (L : Char → Bool) (acc : ScanAcc) :
    ∀ f : Nat, scanHeader L (str "A>x\nhello") f (-1) acc = none ∧
      scanHeader L (str "A>x\nhello") f 3 acc = none := by
  intro f
  induction f with
  | zero => exact ⟨rfl, rfl⟩
  | succ n ih =>
    refine ⟨?_, ?_⟩
    · have hstep : scanHeader L (str "A>x\nhello") (n + 1) (-1) acc =
          scanHeader L (str "A>x\nhello") n 3 acc := rfl
      rw [hstep]
      exact ih.2
    · have hstep : scanHeader L (str "A>x\nhello") (n + 1) 3 acc =
          scanHeader L (str "A>x\nhello") n (-1) acc := rfl
      rw [hstep]
      exact ih.1

lemma scanHeader_kv_cycle (L : Char → Bool) (acc : ScanAcc) :
    ∀ f : Nat, scanHeader L (str "A>x\nB>y") f (-1) acc = none ∧
      scanHeader L (str "A>x\nB>y") f 3 acc = none := by
  intro f
  induction f with
  | zero => exact ⟨rfl, rfl⟩
  | succ n ih =>
    refine ⟨?_, ?_⟩
    · have hstep : scanHeader L (str "A>x\nB>y") (n + 1) (-1) acc =
          scanHeader L (str "A>x\nB>y") n 3 acc := rfl
      rw [hstep]
      exact ih.2
    · have hstep : scanHeader L (str "A>x\nB>y") (n + 1) 3 acc =
          scanHeader L (str "A>x\nB>y") n (-1) acc := rfl
      rw [hstep]
      exact ih.1

/-- C4: the fail-soft contract is broken.  On `"A>x\nhello"` — whose
second line `"hello"` is neither a key-value pair nor a tag annotation
— the header scan never stops (no amount of fuel makes it return), so
the parser neither stops at the first unrecognized line nor treats the
rest as content; it loops forever.  The worst-case clause does hold on
data without any newline: there the very first extracted line is empty,
the scan breaks immediately, and the whole body becomes content with no
header fields recognized. -/
theorem C4_parse_failsoft_broken :
    (∀ fuel : Nat,
      parseTetraPost unicodeLetterAscii id fuel (str "A>x\nhello") = none) ∧
    parseTetraPost unicodeLetterAscii id 2 (str "no header here") =
      some { content := str "no header here" } := by
  constructor
  · intro fuel
    rw [parseTetraPost, (scanHeader_hello_cycle unicodeLetterAscii {} fuel).1]
  · rfl

/-- C9: the header-scan loop does not always reach its `break`.  On
`"A>x\nB>y"`, whose final line is a header-shaped `KEY>value` line not
terminated by a newline, the scan diverges: `substring(4, -1)` yields
the prefix `"A>x\n"`, which matches the key-value regex, and the loop
restarts from position 0 forever, for every letter table and turndown
collaborator. -/
theorem C9_parse_nonterminating (L : Char → Bool) (td : Str → Str) :
    ∀ fuel : Nat, parseTetraPost L td fuel (str "A>x\nB>y") = none := by
  intro fuel
  rw [parseTetraPost, (scanHeader_kv_cycle L {} fuel).1]

/-! ### Scan-state preservation and the gating invariant (C1) -/

lemma scanHeader_preserves (P : ScanAcc → Prop) (L : Char → Bool) (data : Str)
    (hkey : ∀ k v acc, P acc → P (processKey L k v acc))
    (htag : ∀ t acc, P acc →
      P { acc with post := { acc.post with tags := acc.post.tags ++ [t] } }) :
    ∀ (fuel : Nat) (lineEnd : Int) (acc : ScanAcc) (r : Int × ScanAcc),
      scanHeader L data fuel lineEnd acc = some r → P acc → P r.2 := by
  intro fuel
  induction fuel with
  | zero => intro lineEnd acc r h; simp [scanHeader] at h
  | succ n ih =>
    intro lineEnd acc r h hacc
    simp only [scanHeader] at h
    split at h
    · split at h
      · cases h
        exact hacc
      · exact ih _ _ _ h (htag _ _ hacc)
    · split at h
      · cases h
        exact hacc
      · exact ih _ _ _ h (hkey _ _ _ hacc)

lemma truthyNat_eq_some {o : Option Nat} {t : Nat} (h : truthyNat o = some t) :
    o = some t ∧ t ≠ 0 := by
  match o with
  | none => simp [truthyNat] at h
  | some v =>
    simp only [truthyNat] at h
    by_cases hv : v = 0
    · rw [if_pos hv] at h
      cases h
    · rw [if_neg hv] at h
      cases h
      exact ⟨rfl, hv⟩

/-- C1: the gating invariant.  (i) A reply is only ever submitted when
its predecessor has a truthy entry in the topic-id mapping:
`preparePostForRequest` succeeding on a non-thread-start post forces a
nonzero `tetraPid2nodeTid` entry for `previous`, and the submission
happens only after it succeeds.  (ii) Parser outputs with
`isThreadStart` true always carry the empty `previous`, so a post with
a non-empty `previous` is a non-thread-start and falls under (i).
(iii) The main-loop gate skips (defers with `Cannot be migrated yet`)
every non-thread-start post whose predecessor is not yet in the
post-id mapping. -/
theorem C1_gating_invariant :
    (∀ (cfg : Config) (st : MigState) (parsed : ParsedPost) (req : ReqData),
      parsed.isThreadStart = false →
      (preparePostForRequest cfg st parsed).toOption = some req →
      ∃ t, t ≠ 0 ∧ List.lookup (jsKeyOf parsed.previous) st.tidMap = some t) ∧
    (∀ (L : Char → Bool) (td : Str → Str) (fuel : Nat) (data : Str) (p : ParsedPost),
      parseTetraPost L td fuel data = some p → p.isThreadStart = true →
      p.previous = some []) ∧
    (∀ (pidMap : IdMap) (tetraPid : Str) (p : ParsedPost),
      p.isThreadStart = false →
      List.lookup (jsKeyOf p.previous) pidMap = none →
      gateSkips pidMap tetraPid p = true) := by
  refine ⟨?_, ?_, ?_⟩
  · intro cfg st parsed req h0 hok
    cases htn : truthyNat (List.lookup (jsKeyOf parsed.previous) st.tidMap) with
    | none =>
      simp only [preparePostForRequest, h0, Bool.false_eq_true, if_false, htn] at hok
      cases hok
    | some tid =>
      obtain ⟨hl, hne⟩ := truthyNat_eq_some htn
      exact ⟨tid, hne, hl⟩
  · intro L td fuel data p hp hts
    have hkey : ∀ (k v : Str) (acc : ScanAcc),
        (acc.post.isThreadStart = true → acc.post.previous = some []) →
        ((processKey L k v acc).post.isThreadStart = true →
          (processKey L k v acc).post.previous = some []) := by
      intro k v acc hacc
      rw [processKey]
      split_ifs <;> intro h <;>
        first
          | exact hacc h
          | (simp only [decide_eq_true_eq] at h
             subst h
             rfl)
    have htag : ∀ (t : Str) (acc : ScanAcc),
        (acc.post.isThreadStart = true → acc.post.previous = some []) →
        (({ acc with post := { acc.post with tags := acc.post.tags ++ [t] } } :
            ScanAcc).post.isThreadStart = true →
          ({ acc with post := { acc.post with tags := acc.post.tags ++ [t] } } :
            ScanAcc).post.previous = some []) := by
      intro t acc hacc h
      exact hacc h
    unfold parseTetraPost at hp
    cases hscan : scanHeader L data fuel (-1) {} with
    | none => rw [hscan] at hp; cases hp
    | some r =>
      rw [hscan] at hp
      simp only [Option.some.injEq] at hp
      have hP := scanHeader_preserves
        (fun acc => acc.post.isThreadStart = true → acc.post.previous = some [])
        L data hkey htag fuel (-1) {} r hscan (fun h => absurd h (by decide))
      rw [← hp] at hts ⊢
      exact hP hts
  · intro pidMap tetraPid p h0 hl
    rw [gateSkips, h0, hl]
    simp

/-- The request produced for the fixture reply (read back from the
model itself; used to instantiate C1 at a concrete input). -/
def reqEx : ReqData :=
  (preparePostForRequest cfgEx stEx replyEx).toOption.getD
    ⟨ReqPath.createTopic, ⟨[], 0, none, none, none, none⟩, none, []⟩

/-- Witness for C1: the fixture reply to the migrated post "42"
prepares successfully and "42" indeed has the nonzero topic-id entry 3;
parsing a record with an empty `PREVIOUS>` header gives a thread start
with empty `previous`; and a reply whose predecessor is unmapped is
skipped by the gate. -/
theorem C1_gating_invariant_witness :
    (∃ t, t ≠ 0 ∧ List.lookup (jsKeyOf replyEx.previous) stEx.tidMap = some t) ∧
    (parseTetraPost unicodeLetterAscii id 3 (str "PREVIOUS>\nstop\nx")).map
      ParsedPost.previous = some (some []) ∧
    gateSkips [] (str "7") replyEx = true := by
  refine ⟨?_, ?_, ?_⟩
  · exact C1_gating_invariant.1 cfgEx stEx replyEx reqEx (by decide) (by decide)
  · have hparse : parseTetraPost unicodeLetterAscii id 3 (str "PREVIOUS>\nstop\nx") =
        some { isThreadStart := true, previous := some [], content := str "stop\nx" } := by
      decide
    have h2 := C1_gating_invariant.2.1 unicodeLetterAscii id 3
      (str "PREVIOUS>\nstop\nx") _ hparse rfl
    rw [hparse, Option.map_some', h2]
  · exact C1_gating_invariant.2.2 [] (str "7") replyEx (by decide) (by decide)

/-! ### Claim C7: when the set-tags follow-up is issued -/

lemma prepare_actions_shape (cfg : Config) (st : MigState) (parsed : ParsedPost)
    (req : ReqData) (h : (preparePostForRequest cfg st parsed).toOption = some req) :
    ∃ base mid, (base = RAction.recordTopic ∨ base = RAction.recordReply) ∧
      (∀ a ∈ mid, ∃ p r, a = RAction.migrateRest p r) ∧
      req.actions = base :: mid ++
        (if parsed.tags.length > 0 then [RAction.putTags parsed.tags] else []) := by
  simp only [preparePostForRequest] at h
  cases hts : parsed.isThreadStart with
  | true =>
    simp only [hts, if_true, Except.toOption, Option.some.injEq] at h
    subst h
    set cPad := if parsed.content.length < 8 then
      parsed.content ++ placeholderText else parsed.content with hcp
    refine ⟨RAction.recordTopic,
      (match (splitContent cPad).2 with
        | none => []
        | some rest => if rest = [] then [] else [RAction.migrateRest parsed rest]),
      Or.inl rfl, ?_, ?_⟩
    · intro a ha
      cases hsp : (splitContent cPad).2 with
      | none =>
        simp only [hsp] at ha
        cases ha
      | some rest =>
        simp only [hsp] at ha
        by_cases hre : rest = []
        · rw [if_pos hre] at ha
          cases ha
        · rw [if_neg hre] at ha
          rcases List.mem_singleton.mp ha with rfl
          exact ⟨parsed, rest, rfl⟩
    · cases hsp : (splitContent cPad).2 with
      | none => simp only [hsp]; split_ifs <;> simp
      | some rest => simp only [hsp]; split_ifs <;> simp
  | false =>
    simp only [hts, Bool.false_eq_true, if_false] at h
    cases htn : truthyNat (List.lookup (jsKeyOf parsed.previous) st.tidMap) with
    | none =>
      simp only [htn, Except.toOption] at h
      cases h
    | some tid =>
      simp only [htn, Except.toOption, Option.some.injEq] at h
      subst h
      set c2 := (match parsed.subject with
        | some subj =>
          if subj = [] then parsed.content
          else cfg.turndown subj ++ str "\n" ++ parsed.content
        | none => parsed.content) with hc2
      set cPad := if c2.length < 8 then c2 ++ placeholderText else c2 with hcp
      refine ⟨RAction.recordReply,
        (match (splitContent cPad).2 with
          | none => []
          | some rest => if rest = [] then [] else [RAction.migrateRest parsed rest]),
        Or.inr rfl, ?_, ?_⟩
      · intro a ha
        cases hsp : (splitContent cPad).2 with
        | none =>
          simp only [hsp] at ha
          cases ha
        | some rest =>
          simp only [hsp] at ha
          by_cases hre : rest = []
          · rw [if_pos hre] at ha
            cases ha
          · rw [if_neg hre] at ha
            rcases List.mem_singleton.mp ha with rfl
            exact ⟨parsed, rest, rfl⟩
      · cases hsp : (splitContent cPad).2 with
        | none => simp only [hsp]; split_ifs <;> simp
        | some rest => simp only [hsp]; split_ifs <;> simp

/-- Counterexample to C7 as stated: the source never checks
`isThreadStart` before chaining the set-tags callback, so a *reply*
carrying a tag does issue the set-topic-tags request (the `putTags`
step is present in its completion chain). -/
theorem C7_counterexample :
    (preparePostForRequest cfgEx stEx replyEx).toOption.map ReqData.actions =
      some [RAction.recordReply, RAction.putTags [str "lep"]] ∧
    replyEx.isThreadStart = false ∧ replyEx.tags ≠ [] := by
  exact ⟨by decide, by decide, by decide⟩

/-- C7 (amended): the set-tags follow-up step is registered exactly
when the parsed post carries at least one tag — whether or not the post
is a thread start — and it is always the last step of the completion
chain, after the step that records the created topic/post. -/
theorem C7_tags_request_iff (cfg : Config) (st : MigState) (parsed : ParsedPost)
    (req : ReqData)
    (h : (preparePostForRequest cfg st parsed).toOption = some req) :
    (RAction.putTags parsed.tags ∈ req.actions ↔ parsed.tags ≠ []) ∧
    (parsed.tags ≠ [] → ∃ pre, req.actions = pre ++ [RAction.putTags parsed.tags] ∧
      (RAction.recordTopic ∈ pre ∨ RAction.recordReply ∈ pre)) := by
  obtain ⟨base, mid, hbase, hmid, hacts⟩ := prepare_actions_shape cfg st parsed req h
  have hput : parsed.tags ≠ [] → parsed.tags.length > 0 :=
    fun ht => List.length_pos.mpr ht
  refine ⟨⟨?_, ?_⟩, ?_⟩
  · intro hmem htags
    rw [hacts, if_neg (by simp [htags])] at hmem
    rw [List.append_nil] at hmem
    rcases List.mem_cons.mp hmem with h1 | h1
    · rcases hbase with hb | hb <;> rw [hb] at h1 <;> cases h1
    · obtain ⟨p, r, hpr⟩ := hmid _ h1
      cases hpr
  · intro htags
    rw [hacts, if_pos (hput htags)]
    simp
  · intro htags
    refine ⟨base :: mid, ?_, ?_⟩
    · rw [hacts, if_pos (hput htags)]
    · rcases hbase with hb | hb
      · exact Or.inl (by rw [hb]; exact List.mem_cons_self _ _)
      · exact Or.inr (by rw [hb]; exact List.mem_cons_self _ _)

/-- Witness for C7: the fixture reply carries the tag list
`["lep"]`, and its completion chain is the record step followed by the
set-tags step. -/
theorem C7_tags_request_iff_witness :
    (RAction.putTags replyEx.tags ∈ reqEx.actions ↔ replyEx.tags ≠ []) ∧
    (replyEx.tags ≠ [] → ∃ pre, reqEx.actions = pre ++ [RAction.putTags replyEx.tags] ∧
      (RAction.recordTopic ∈ pre ∨ RAction.recordReply ∈ pre)) :=
  C7_tags_request_iff cfgEx stEx replyEx reqEx (by decide)

/-! ### Claim C8: the EMAIL header value is never propagated -/

lemma findIdx?_append_of_not (p : Char → Bool) (pre tail : Str)
    (hpre : ∀ c ∈ pre, p c = false) :
    List.findIdx? p (pre ++ tail) = (List.findIdx? p tail).map (· + pre.length) := by
  rw [List.findIdx?_append, show List.findIdx? p pre = none from
    List.findIdx?_eq_none_iff.mpr hpre]
  exact Option.none_or

lemma findIdx?_newline (v : Str) (hv : '\n' ∉ v) (rest : Str) :
    List.findIdx? (fun c => decide (c = '\n')) (v ++ '\n' :: rest) = some v.length := by
  have hpre : ∀ c ∈ v, (fun c => decide (c = '\n')) c = false := by
    intro c hc
    simp only [decide_eq_false_iff_not]
    intro h
    exact hv (h ▸ hc)
  rw [findIdx?_append_of_not _ v _ hpre, List.findIdx?_cons]
  simp

/-- A record whose first line is an `EMAIL>` header carrying the value
`v`, followed by an arbitrary remainder `suf` of the record. -/
def emailData (v suf : Str) : Str := str "EMAIL>" ++ v ++ '\n' :: suf

/-- The effect of processing an `EMAIL` header on the scan state: the
email field is redacted to the empty string, the value is dropped. -/
def redactEmail (acc : ScanAcc) : ScanAcc :=
  { acc with post := { acc.post with email := some [] } }

lemma processKey_email (L : Char → Bool) (val : Str) (acc : ScanAcc) :
    processKey L (str "EMAIL") val acc = redactEmail acc := rfl

lemma kvMatch_email (w : Str) :
    kvMatch (str "EMAIL>" ++ w) = some (str "EMAIL", w.takeWhile regexDotChar) := rfl

lemma emailData_eq_line (v suf : Str) :
    emailData v suf = (str "EMAIL>" ++ v) ++ '\n' :: suf :=
  (List.append_assoc (str "EMAIL>") v ('\n' :: suf)).symm

lemma emailData_eq_flat (v suf : Str) :
    emailData v suf = (str "EMAIL>" ++ v ++ ['\n']) ++ suf := by
  simp [emailData]

lemma email_flat_length (v : Str) :
    (str "EMAIL>" ++ v ++ ['\n']).length = 7 + v.length := by
  rw [List.length_append, List.length_append]
  rw [show (str "EMAIL>").length = 6 from rfl, show (['\n'] : Str).length = 1 from rfl]
  omega

lemma emailData_length (v suf : Str) :
    (emailData v suf).length = 7 + v.length + suf.length := by
  rw [emailData_eq_flat, List.length_append, email_flat_length]

lemma emailData_drop (v suf : Str) (k : Nat) :
    (emailData v suf).drop (7 + v.length + k) = suf.drop k := by
  rw [emailData_eq_flat]
  rw [show 7 + v.length + k = (str "EMAIL>" ++ v ++ ['\n']).length + k from by
    rw [email_flat_length]]
  rw [List.drop_append]

lemma findIdx?_some_lt_of_start (p : Char → Bool) :
    ∀ (l : Str) (i j : Nat), List.findIdx? p l i = some j → j < i + l.length := by
  intro l
  induction l with
  | nil =>
    intro i j h
    rw [show List.findIdx? p [] i = none from rfl] at h
    cases h
  | cons x xs ih =>
    intro i j h
    rw [List.findIdx?_cons] at h
    by_cases hp : p x
    · rw [if_pos hp] at h
      simp only [Option.some.injEq] at h
      subst h
      simp only [List.length_cons]
      omega
    · rw [if_neg hp] at h
      have hj := ih (i + 1) j h
      simp only [List.length_cons]
      omega

lemma findIdx?_some_lt (p : Char → Bool) (l : Str) (j : Nat)
    (h : List.findIdx? p l = some j) : j < l.length := by
  have hj := findIdx?_some_lt_of_start p l 0 j h
  omega

lemma emailData_indexOf_start (v suf : Str) (hv : '\n' ∉ v) :
    jsIndexOf (emailData v suf) '\n' 0 = ((6 + v.length : Nat) : Int) := by
  simp only [jsIndexOf, Int.toNat_zero, List.drop_zero]
  rw [show emailData v suf = str "EMAIL>" ++ (v ++ '\n' :: suf) from rfl]
  rw [findIdx?_append_of_not _ _ _ (by decide), findIdx?_newline v hv]
  simp only [Option.map_some']
  rw [show (str "EMAIL>").length = 6 from rfl]
  push_cast
  omega

lemma emailData_indexOf_shift_found (v suf : Str) (k j : Nat)
    (hfind : List.findIdx? (fun c => decide (c = '\n')) (suf.drop k) = some j) :
    jsIndexOf (emailData v suf) '\n' ((7 + v.length + k : Nat) : Int) =
      ((7 + v.length + k + j : Nat) : Int) := by
  simp only [jsIndexOf, Int.toNat_natCast]
  rw [emailData_drop v suf k, hfind]

lemma emailData_indexOf_shift_none (v suf : Str) (k : Nat)
    (hfind : List.findIdx? (fun c => decide (c = '\n')) (suf.drop k) = none) :
    jsIndexOf (emailData v suf) '\n' ((7 + v.length + k : Nat) : Int) = -1 := by
  simp only [jsIndexOf, Int.toNat_natCast]
  rw [emailData_drop v suf k, hfind]

lemma emailData_line0 (v suf : Str) :
    jsSubstring (emailData v suf) 0 ((6 + v.length : Nat) : Int) = str "EMAIL>" ++ v := by
  rw [jsSubstring]
  have ha : substrIdx (emailData v suf).length 0 = 0 := by simp [substrIdx]
  have hb : substrIdx (emailData v suf).length ((6 + v.length : Nat) : Int) =
      6 + v.length := by
    simp only [substrIdx, Int.toNat_natCast, emailData_length]
    omega
  rw [ha, hb]
  rw [show max 0 (6 + v.length) = 6 + v.length from by omega,
    show min 0 (6 + v.length) = 0 from by omega, List.drop_zero]
  rw [emailData_eq_line]
  exact List.take_left' (by
    rw [List.length_append]
    rw [show (str "EMAIL>").length = 6 from rfl])

lemma emailData_line_shift (v suf : Str) (k j : Nat) (hkj : k + j < suf.length) :
    jsSubstring (emailData v suf) ((7 + v.length + k : Nat) : Int)
      ((7 + v.length + k + j : Nat) : Int) = (suf.take (k + j)).drop k := by
  rw [jsSubstring]
  have ha : substrIdx (emailData v suf).length ((7 + v.length + k : Nat) : Int) =
      7 + v.length + k := by
    simp only [substrIdx, Int.toNat_natCast, emailData_length]
    omega
  have hb : substrIdx (emailData v suf).length ((7 + v.length + k + j : Nat) : Int) =
      7 + v.length + (k + j) := by
    simp only [substrIdx, Int.toNat_natCast, emailData_length]
    omega
  rw [ha, hb]
  rw [max_eq_right (by omega), min_eq_left (by omega)]
  rw [emailData_eq_flat]
  rw [show 7 + v.length + (k + j) = (str "EMAIL>" ++ v ++ ['\n']).length + (k + j) from by
    rw [email_flat_length]]
  rw [List.take_append]
  rw [show 7 + v.length + k = (str "EMAIL>" ++ v ++ ['\n']).length + k from by
    rw [email_flat_length]]
  rw [List.drop_append]

lemma emailData_line_quirk (v suf : Str) (k : Nat) (hk : k ≤ suf.length) :
    jsSubstring (emailData v suf) ((7 + v.length + k : Nat) : Int) (-1) =
      str "EMAIL>" ++ (v ++ '\n' :: suf.take k) := by
  rw [jsSubstring]
  have ha : substrIdx (emailData v suf).length ((7 + v.length + k : Nat) : Int) =
      7 + v.length + k := by
    simp only [substrIdx, Int.toNat_natCast, emailData_length]
    omega
  have hb : substrIdx (emailData v suf).length (-1) = 0 := by
    rw [substrIdx, show Int.toNat (-1) = 0 from rfl]
    simp
  rw [ha, hb]
  rw [max_eq_left (by omega), min_eq_right (by omega), List.drop_zero]
  rw [emailData_eq_line]
  rw [show 7 + v.length + k = (str "EMAIL>" ++ v).length + (1 + k) from by
    rw [List.length_append]
    rw [show (str "EMAIL>").length = 6 from rfl]
    omega]
  rw [List.take_append]
  rw [show 1 + k = k + 1 from by omega, List.take_succ_cons]
  exact List.append_assoc _ _ _

lemma emailData_contentFrom (v suf : Str) (k : Nat) :
    jsSubstringFrom (emailData v suf) ((7 + v.length + k : Nat) : Int) = suf.drop k := by
  rw [jsSubstringFrom]
  rw [show substrIdx (emailData v suf).length ((7 + v.length + k : Nat) : Int) =
      min (7 + v.length + k) (emailData v suf).length from by
    simp only [substrIdx, Int.toNat_natCast]]
  rcases Nat.le_total (7 + v.length + k) (emailData v suf).length with hle | hle
  · rw [min_eq_left hle, emailData_drop]
  · rw [min_eq_right hle, List.drop_length]
    rw [emailData_length] at hle
    rw [List.drop_eq_nil_of_le (by omega)]

/-- The first step of the header scan on `emailData v suf`: the first
line is the `EMAIL` header, whose value is dropped. -/
lemma scanHeader_email_step0 (L : Char → Bool) (v suf : Str) (hv : '\n' ∉ v)
    (fuel : Nat) (acc : ScanAcc) :
    scanHeader L (emailData v suf) (fuel + 1) (-1) acc =
      scanHeader L (emailData v suf) fuel ((6 + v.length : Nat) : Int)
        (redactEmail acc) := by
  simp only [scanHeader]
  rw [show (-1 + 1 : Int) = 0 from by norm_num]
  rw [emailData_indexOf_start v suf hv, emailData_line0 v suf, kvMatch_email]
  simp only [reduceCtorEq, if_false, List.cons_ne_nil]
  rw [processKey_email]
  rw [if_neg (show ¬(str "EMAIL" = ([] : Str)) from by decide)]

/-- A scan step from a shifted position when the rest of the record
holds a further newline and the current line matches the key-value
regex with a nonempty key: process the key and advance. -/
lemma scanHeader_email_stepA_kv (L : Char → Bool) (v suf : Str) (k j : Nat)
    (fuel : Nat) (acc : ScanAcc) (kv : Str × Str)
    (hfind : List.findIdx? (fun c => decide (c = '\n')) (suf.drop k) = some j)
    (hkj : k + j < suf.length)
    (hkv : kvMatch ((suf.take (k + j)).drop k) = some kv) (hne : kv.1 ≠ []) :
    scanHeader L (emailData v suf) (fuel + 1) ((6 + v.length + k : Nat) : Int) acc =
      scanHeader L (emailData v suf) fuel ((7 + v.length + k + j : Nat) : Int)
        (processKey L kv.1 kv.2 acc) := by
  simp only [scanHeader]
  rw [show (((6 + v.length + k : Nat) : Int) + 1) = ((7 + v.length + k : Nat) : Int) from by
    push_cast
    omega]
  rw [emailData_indexOf_shift_found v suf k j hfind]
  rw [emailData_line_shift v suf k j hkj]
  simp only [hkv, if_neg hne]

/-- A scan step from a shifted position when the current line matches
the tag annotation: record the tag and advance. -/
lemma scanHeader_email_stepA_tag (L : Char → Bool) (v suf : Str) (k j : Nat)
    (fuel : Nat) (acc : ScanAcc) (t : Str)
    (hfind : List.findIdx? (fun c => decide (c = '\n')) (suf.drop k) = some j)
    (hkj : k + j < suf.length)
    (hkv : kvMatch ((suf.take (k + j)).drop k) = none)
    (htag : tagMatch ((suf.take (k + j)).drop k) = some t) :
    scanHeader L (emailData v suf) (fuel + 1) ((6 + v.length + k : Nat) : Int) acc =
      scanHeader L (emailData v suf) fuel ((7 + v.length + k + j : Nat) : Int)
        { acc with post := { acc.post with tags := acc.post.tags ++ [t] } } := by
  simp only [scanHeader]
  rw [show (((6 + v.length + k : Nat) : Int) + 1) = ((7 + v.length + k : Nat) : Int) from by
    push_cast
    omega]
  rw [emailData_indexOf_shift_found v suf k j hfind]
  rw [emailData_line_shift v suf k j hkj]
  simp only [hkv, htag]

/-- A scan step from a shifted position when the current line matches
neither pattern: the loop breaks at the current line start. -/
lemma scanHeader_email_stepA_break (L : Char → Bool) (v suf : Str) (k j : Nat)
    (fuel : Nat) (acc : ScanAcc)
    (hfind : List.findIdx? (fun c => decide (c = '\n')) (suf.drop k) = some j)
    (hkj : k + j < suf.length)
    (hkv : kvMatch ((suf.take (k + j)).drop k) = none)
    (htag : tagMatch ((suf.take (k + j)).drop k) = none) :
    scanHeader L (emailData v suf) (fuel + 1) ((6 + v.length + k : Nat) : Int) acc =
      some (((7 + v.length + k : Nat) : Int), acc) := by
  simp only [scanHeader]
  rw [show (((6 + v.length + k : Nat) : Int) + 1) = ((7 + v.length + k : Nat) : Int) from by
    push_cast
    omega]
  rw [emailData_indexOf_shift_found v suf k j hfind]
  rw [emailData_line_shift v suf k j hkj]
  simp only [hkv, htag]

/-- A scan step from a shifted position when the key-value match has an
empty key: the loop breaks (unreachable for `kvMatch`, kept for
exhaustiveness of the loop body). -/
lemma scanHeader_email_stepA_kvnil (L : Char → Bool) (v suf : Str) (k j : Nat)
    (fuel : Nat) (acc : ScanAcc) (kv : Str × Str)
    (hfind : List.findIdx? (fun c => decide (c = '\n')) (suf.drop k) = some j)
    (hkj : k + j < suf.length)
    (hkv : kvMatch ((suf.take (k + j)).drop k) = some kv) (hnil : kv.1 = []) :
    scanHeader L (emailData v suf) (fuel + 1) ((6 + v.length + k : Nat) : Int) acc =
      some (((7 + v.length + k : Nat) : Int), acc) := by
  simp only [scanHeader]
  rw [show (((6 + v.length + k : Nat) : Int) + 1) = ((7 + v.length + k : Nat) : Int) from by
    push_cast
    omega]
  rw [emailData_indexOf_shift_found v suf k j hfind]
  rw [emailData_line_shift v suf k j hkj]
  simp only [hkv, if_pos hnil]

/-- A scan step from a shifted position when no newline remains: by the
argument-swapping quirk the scanned line is the whole prefix, which
starts with `EMAIL>` and so matches the key-value regex with key
`EMAIL`; the differing values are dropped and the scan restarts with
`lineEnd = -1` on both records. -/
lemma scanHeader_email_stepB (L : Char → Bool) (v suf : Str) (k : Nat)
    (fuel : Nat) (acc : ScanAcc)
    (hfind : List.findIdx? (fun c => decide (c = '\n')) (suf.drop k) = none)
    (hk : k ≤ suf.length) :
    scanHeader L (emailData v suf) (fuel + 1) ((6 + v.length + k : Nat) : Int) acc =
      scanHeader L (emailData v suf) fuel (-1) (redactEmail acc) := by
  simp only [scanHeader]
  rw [show (((6 + v.length + k : Nat) : Int) + 1) = ((7 + v.length + k : Nat) : Int) from by
    push_cast
    omega]
  rw [emailData_indexOf_shift_none v suf k hfind]
  rw [emailData_line_quirk v suf k hk, kvMatch_email]
  simp only [reduceCtorEq, if_false, List.cons_ne_nil]
  rw [processKey_email]
  rw [if_neg (show ¬(str "EMAIL" = ([] : Str)) from by decide)]

/-- Bisimulation of the header scan on two records that differ only in
the (newline-free) value of the leading `EMAIL` header: from related
loop states — both at `lineEnd = -1`, or both at the same offset into
the shared remainder — the two scans consume equal fuel and either both
diverge or both break at the same relative position with equal
accumulated state. -/
lemma scanHeader_email_bisim (L : Char → Bool) (v1 v2 suf : Str)
    (h1 : '\n' ∉ v1) (h2 : '\n' ∉ v2) :
    ∀ (fuel : Nat) (e1 e2 : Int) (acc : ScanAcc),
      ((e1 = -1 ∧ e2 = -1) ∨
        (∃ k, k ≤ suf.length ∧ e1 = ((6 + v1.length + k : Nat) : Int) ∧
          e2 = ((6 + v2.length + k : Nat) : Int))) →
      ((scanHeader L (emailData v1 suf) fuel e1 acc = none ∧
        scanHeader L (emailData v2 suf) fuel e2 acc = none) ∨
       (∃ k a, k ≤ suf.length ∧
         scanHeader L (emailData v1 suf) fuel e1 acc =
           some (((7 + v1.length + k : Nat) : Int), a) ∧
         scanHeader L (emailData v2 suf) fuel e2 acc =
           some (((7 + v2.length + k : Nat) : Int), a))) := by
  intro fuel
  induction fuel with
  | zero =>
    intro e1 e2 acc hst
    exact Or.inl ⟨rfl, rfl⟩
  | succ n ih =>
    intro e1 e2 acc hst
    rcases hst with ⟨he1, he2⟩ | ⟨k, hk, he1, he2⟩
    · subst he1
      subst he2
      rw [scanHeader_email_step0 L v1 suf h1 n acc,
          scanHeader_email_step0 L v2 suf h2 n acc]
      exact ih _ _ _ (Or.inr ⟨0, Nat.zero_le _, by omega, by omega⟩)
    · subst he1
      subst he2
      cases hfind : List.findIdx? (fun c => decide (c = '\n')) (suf.drop k) with
      | none =>
        rw [scanHeader_email_stepB L v1 suf k n acc hfind hk,
            scanHeader_email_stepB L v2 suf k n acc hfind hk]
        exact ih _ _ _ (Or.inl ⟨rfl, rfl⟩)
      | some j =>
        have hkj : k + j < suf.length := by
          have hb := findIdx?_some_lt _ _ _ hfind
          rw [List.length_drop] at hb
          omega
        cases hkv : kvMatch ((suf.take (k + j)).drop k) with
        | some kv =>
          by_cases hnil : kv.1 = []
          · rw [scanHeader_email_stepA_kvnil L v1 suf k j n acc kv hfind hkj hkv hnil,
                scanHeader_email_stepA_kvnil L v2 suf k j n acc kv hfind hkj hkv hnil]
            exact Or.inr ⟨k, acc, hk, rfl, rfl⟩
          · rw [scanHeader_email_stepA_kv L v1 suf k j n acc kv hfind hkj hkv hnil,
                scanHeader_email_stepA_kv L v2 suf k j n acc kv hfind hkj hkv hnil]
            exact ih _ _ _ (Or.inr ⟨k + j + 1, by omega, by omega, by omega⟩)
        | none =>
          cases htag : tagMatch ((suf.take (k + j)).drop k) with
          | some t =>
            rw [scanHeader_email_stepA_tag L v1 suf k j n acc t hfind hkj hkv htag,
                scanHeader_email_stepA_tag L v2 suf k j n acc t hfind hkj hkv htag]
            exact ih _ _ _ (Or.inr ⟨k + j + 1, by omega, by omega, by omega⟩)
          | none =>
            rw [scanHeader_email_stepA_break L v1 suf k j n acc hfind hkj hkv htag,
                scanHeader_email_stepA_break L v2 suf k j n acc hfind hkj hkv htag]
            exact Or.inr ⟨k, acc, hk, rfl, rfl⟩

/-- Noninterference of the `EMAIL` header value: two records that agree
except for the (newline-free) value of their leading `EMAIL` header
parse to the very same result — the same record, or divergence on both
— for every fuel bound, letter table and turndown collaborator. -/
lemma parse_email_noninterference (L : Char → Bool) (td : Str → Str) (fuel : Nat)
    (v1 v2 suf : Str) (h1 : '\n' ∉ v1) (h2 : '\n' ∉ v2) :
    parseTetraPost L td fuel (emailData v1 suf) =
      parseTetraPost L td fuel (emailData v2 suf) := by
  rcases scanHeader_email_bisim L v1 v2 suf h1 h2 fuel (-1) (-1) {}
      (Or.inl ⟨rfl, rfl⟩) with ⟨hn1, hn2⟩ | ⟨k, a, hk, hs1, hs2⟩
  · simp only [parseTetraPost, hn1, hn2]
  · simp only [parseTetraPost, hs1, hs2]
    rw [emailData_contentFrom v1 suf k, emailData_contentFrom v2 suf k]

/-- Counterexamples to C8 as stated, and to dropping either qualifier
of the amendment.  First: a record with no `EMAIL` header at all parses
with `email` still `null` (`none`), not the empty string.  Second: the
redaction applies only to an EMAIL header line the scan processes — on
these two records the scan breaks at the first line (`"x"`), the EMAIL
line lands in the content, and the two parses differ.  Third: a value
containing a newline changes the line structure of the record itself —
these two records differ only in the EMAIL value (`"a\nPREVIOUS>"`
versus `"b"`) yet parse to records that differ beyond the content. -/
theorem C8_counterexample :
    ((parseTetraPost unicodeLetterAscii id 2 (str "x")).map ParsedPost.email =
        some none ∧ (none : Option Str) ≠ some []) ∧
    parseTetraPost unicodeLetterAscii id 2 (str "x\nEMAIL>a") ≠
      parseTetraPost unicodeLetterAscii id 2 (str "x\nEMAIL>b") ∧
    parseTetraPost unicodeLetterAscii id 3 (str "EMAIL>a\nPREVIOUS>\nz\nw") ≠
      parseTetraPost unicodeLetterAscii id 3 (str "EMAIL>b\nz\nw") := by
  exact ⟨⟨by decide, by decide⟩, by decide, by decide⟩

/-- C8 (amended): the parser never propagates a processed EMAIL
header's value.  (i) On every successfully parsed record the email
field is `null` (no EMAIL header was processed) or the redacted empty
string — never the header's value.  (ii) Noninterference: two records
that differ only in the (newline-free) value of their leading EMAIL
header line parse to the very same result, for every remainder of the
record, every fuel bound, every letter table and every turndown
collaborator. -/
theorem C8_email_never_propagated :
    (∀ (L : Char → Bool) (td : Str → Str) (fuel : Nat) (data : Str) (p : ParsedPost),
      parseTetraPost L td fuel data = some p →
      p.email = none ∨ p.email = some []) ∧
    (∀ (L : Char → Bool) (td : Str → Str) (fuel : Nat) (v1 v2 suf : Str),
      '\n' ∉ v1 → '\n' ∉ v2 →
      parseTetraPost L td fuel (str "EMAIL>" ++ v1 ++ '\n' :: suf) =
        parseTetraPost L td fuel (str "EMAIL>" ++ v2 ++ '\n' :: suf)) := by
  refine ⟨?_, ?_⟩
  · intro L td fuel data p hp
    have hkey : ∀ (k v : Str) (acc : ScanAcc),
        (acc.post.email = none ∨ acc.post.email = some []) →
        ((processKey L k v acc).post.email = none ∨
          (processKey L k v acc).post.email = some []) := by
      intro k v acc hacc
      rw [processKey]
      split_ifs <;> first | exact hacc | exact Or.inr rfl
    have htag : ∀ (t : Str) (acc : ScanAcc),
        (acc.post.email = none ∨ acc.post.email = some []) →
        (({ acc with post := { acc.post with tags := acc.post.tags ++ [t] } } :
            ScanAcc).post.email = none ∨
          ({ acc with post := { acc.post with tags := acc.post.tags ++ [t] } } :
            ScanAcc).post.email = some []) := by
      intro t acc hacc
      exact hacc
    unfold parseTetraPost at hp
    cases hscan : scanHeader L data fuel (-1) {} with
    | none => rw [hscan] at hp; cases hp
    | some r =>
      rw [hscan] at hp
      simp only [Option.some.injEq] at hp
      have hP := scanHeader_preserves
        (fun acc => acc.post.email = none ∨ acc.post.email = some [])
        L data hkey htag fuel (-1) {} r hscan (Or.inl rfl)
      rw [← hp]
      exact hP
  · intro L td fuel v1 v2 suf hv1 hv2
    exact parse_email_noninterference L td fuel v1 v2 suf hv1 hv2

/-- Witness for C8: a record carrying a concrete email address parses
with the email field not set to that address (it is redacted or null),
and the parse result is identical to the one for a record carrying a
different address, here at fuel 2 with remainder "x\ny". -/
theorem C8_email_never_propagated_witness :
    (({ content := str "x" } : ParsedPost).email = none ∨
      ({ content := str "x" } : ParsedPost).email = some []) ∧
    parseTetraPost unicodeLetterAscii id 2
        (str "EMAIL>" ++ str "secret@example.org" ++ '\n' :: str "x\ny") =
      parseTetraPost unicodeLetterAscii id 2
        (str "EMAIL>" ++ str "other@foo.bar" ++ '\n' :: str "x\ny") := by
  refine ⟨?_, ?_⟩
  · exact C8_email_never_propagated.1 unicodeLetterAscii id 2 (str "x")
      { content := str "x" } (by decide)
  · exact C8_email_never_propagated.2 unicodeLetterAscii id 2
      (str "secret@example.org") (str "other@foo.bar") (str "x\ny")
      (by decide) (by decide)

/-! ### Claim C10: the split continuation overwrites the mapping -/

lemma prepare_threadStart_split (cfg : Config) (st : MigState) (parsed : ParsedPost)
    (c1 c2 : Str)
    (hts : parsed.isThreadStart = true)
    (htags : parsed.tags = [])
    (hsplit : splitContent parsed.content = (c1, some c2))
    (hc2 : c2 ≠ []) :
    preparePostForRequest cfg st parsed = Except.ok
      ⟨ReqPath.createTopic,
       ⟨c1, cfg.resolveUid parsed.username, parsed.subject, some cfg.catId,
        parsed.timestamp, none⟩,
       parsed.next,
       [RAction.recordTopic, RAction.migrateRest parsed c2]⟩ := by
  have hlong : maxPostLength < parsed.content.length := by
    by_contra hle
    rw [splitContent_of_le (by omega)] at hsplit
    simp at hsplit
  have h8 : (8 : Nat) ≤ maxPostLength := by norm_num [maxPostLength]
  have hpad : (if parsed.content.length < 8 then
      parsed.content ++ placeholderText else parsed.content) = parsed.content :=
    if_neg (by omega)
  simp only [preparePostForRequest, hts, if_true, hpad, hsplit, htags]
  rw [if_neg hc2]
  simp

lemma prepare_reply_noSubject (cfg : Config) (st : MigState) (p : ParsedPost)
    (tid : Nat)
    (hts : p.isThreadStart = false)
    (hsubj : p.subject = none)
    (htags : p.tags = [])
    (hlen : 8 ≤ p.content.length)
    (hmax : p.content.length ≤ maxPostLength)
    (htid : truthyNat (List.lookup (jsKeyOf p.previous) st.tidMap) = some tid) :
    preparePostForRequest cfg st p = Except.ok
      ⟨ReqPath.replyTopic tid,
       ⟨p.content, cfg.resolveUid p.username, none, none, p.timestamp,
        truthyNat (List.lookup (jsKeyOf p.previous) st.pidMap)⟩,
       p.next, [RAction.recordReply]⟩ := by
  have hpad : (if p.content.length < 8 then
      p.content ++ placeholderText else p.content) = p.content :=
    if_neg (by omega)
  simp only [preparePostForRequest, hts, Bool.false_eq_true, if_false, htid, hsubj,
    hpad, splitContent_of_le hmax, htags]
  simp

/-- One-step unfolding of `migrateTetraPost` at positive fuel. -/
lemma migrateTetraPost_succ (cfg : Config) (oracle : Nat → NodeRes) (fuel : Nat)
    (pp : Option PostPaths) (tetraPid : Str) (parsed : ParsedPost) (st : MigState) :
    migrateTetraPost cfg oracle (fuel + 1) pp tetraPid parsed st =
      match preparePostForRequest cfg st parsed with
      | Except.error e => (st, some e)
      | Except.ok req =>
        let res := oracle st.counter
        let st1 := { st with counter := st.counter + 1 }
        match runActions (migrateTetraPost cfg oracle fuel) tetraPid res req.actions st1 with
        | (st2, some e) => (st2, some e)
        | (st2, none) =>
          match req.next with
          | none => (st2, some MigErr.notIterable)
          | some ids => runNext (migrateTetraPost cfg oracle fuel) pp ids st2 := rfl

/-- C10: after a successful submission of an oversized thread-start
post, the continuation carrying the remainder is migrated under the
same legacy id with `previous` set to that id, and its recording
callback overwrites both topology entries: the post-id mapping for the
legacy id ends up pointing at the continuation chunk's post (the second
submission's `pid`), not at the original chunk's `mainPid`, and the
topic-id entry is likewise overwritten; two submissions are made in
total.  The run then stops with the TypeError the source raises when it
iterates the continuation's `undefined` `next` list. -/
theorem C10_split_continuation_overwrites (cfg : Config) (oracle : Nat → NodeRes)
    (f : Nat) (pp : Option PostPaths) (tetraPid : Str) (parsed : ParsedPost)
    (st : MigState) (c1 c2 : Str)
    (hts : parsed.isThreadStart = true)
    (htags : parsed.tags = [])
    (hsplit : splitContent parsed.content = (c1, some c2))
    (hc2a : 8 ≤ c2.length) (hc2b : c2.length ≤ maxPostLength)
    (htid : (oracle st.counter).tid ≠ 0)
    (hdistinct : (oracle (st.counter + 1)).pid ≠ (oracle st.counter).mainPid) :
    migrateTetraPost cfg oracle (f + 1 + 1) pp tetraPid parsed st =
      ({ pidMap := (tetraPid, (oracle (st.counter + 1)).pid) ::
           (tetraPid, (oracle st.counter).mainPid) :: st.pidMap,
         tidMap := (tetraPid, (oracle (st.counter + 1)).tid) ::
           (tetraPid, (oracle st.counter).tid) :: st.tidMap,
         counter := st.counter + 2,
         tagPuts := st.tagPuts }, some MigErr.notIterable) ∧
    List.lookup tetraPid
        (migrateTetraPost cfg oracle (f + 1 + 1) pp tetraPid parsed st).1.pidMap =
      some ((oracle (st.counter + 1)).pid) ∧
    List.lookup tetraPid
        (migrateTetraPost cfg oracle (f + 1 + 1) pp tetraPid parsed st).1.pidMap ≠
      some ((oracle st.counter).mainPid) := by
  have hc2ne : c2 ≠ [] := by
    intro h
    rw [h] at hc2a
    simp at hc2a
  have hprep := prepare_threadStart_split cfg st parsed c1 c2 hts htags hsplit hc2ne
  have hprev : ({ parsed with isThreadStart := false, previous := some tetraPid, content := c2, subject := none, next := none } : ParsedPost).previous = some tetraPid := rfl
  have htmap : (applyRecord true tetraPid (oracle st.counter) { st with counter := st.counter + 1 }).tidMap = (tetraPid, (oracle st.counter).tid) :: st.tidMap := rfl
  have hkeyof : jsKeyOf (some tetraPid) = tetraPid := rfl
  have hstep : truthyNat (List.lookup (jsKeyOf (({ parsed with isThreadStart := false, previous := some tetraPid, content := c2, subject := none, next := none } : ParsedPost)).previous) ((applyRecord true tetraPid (oracle st.counter) { st with counter := st.counter + 1 }).tidMap)) = some ((oracle st.counter).tid) := by
    rw [hprev, htmap, hkeyof, List.lookup_cons_self]
    simp only [truthyNat]
    rw [if_neg htid]
  have hextprep : preparePostForRequest cfg
      (applyRecord true tetraPid (oracle st.counter) { st with counter := st.counter + 1 })
      { parsed with isThreadStart := false, previous := some tetraPid,
                    content := c2, subject := none, next := none } =
      Except.ok
        ⟨ReqPath.replyTopic ((oracle st.counter).tid),
         ⟨c2, cfg.resolveUid parsed.username, none, none, parsed.timestamp,
          truthyNat (List.lookup tetraPid
            ((tetraPid, (oracle st.counter).mainPid) :: st.pidMap))⟩,
         none, [RAction.recordReply]⟩ := by
    have h := prepare_reply_noSubject cfg
      (applyRecord true tetraPid (oracle st.counter) { st with counter := st.counter + 1 })
      { parsed with isThreadStart := false, previous := some tetraPid,
                    content := c2, subject := none, next := none }
      ((oracle st.counter).tid) rfl rfl htags hc2a hc2b hstep
    rw [h]
    rfl
  have hrun : migrateTetraPost cfg oracle (f + 1 + 1) pp tetraPid parsed st =
      ({ pidMap := (tetraPid, (oracle (st.counter + 1)).pid) ::
           (tetraPid, (oracle st.counter).mainPid) :: st.pidMap,
         tidMap := (tetraPid, (oracle (st.counter + 1)).tid) ::
           (tetraPid, (oracle st.counter).tid) :: st.tidMap,
         counter := st.counter + 2,
         tagPuts := st.tagPuts }, some MigErr.notIterable) := by
    rw [migrateTetraPost_succ, hprep]
    simp only [runActions]
    rw [migrateTetraPost_succ, hextprep]
    simp only [runActions, applyRecord, if_pos]
    simp [Prod.ext_iff, MigState.mk.injEq]
  refine ⟨hrun, ?_, ?_⟩
  · rw [hrun]
    exact List.lookup_cons_self
  · rw [hrun]
    rw [List.lookup_cons_self]
    intro h
    rw [Option.some_inj] at h
    exact hdistinct h

/-- An oversized content: 31000 `a`, a newline, 1500 `b` (length
32501 > 32000; the split cut falls on the newline at offset 31000). -/
def bigContentEx : Str := List.replicate 31000 'a' ++ '\n' :: List.replicate 1500 'b'

/-- A parsed thread start whose content exceeds the maximum. -/
def topicStartEx : ParsedPost :=
  { isThreadStart := true, subject := some (str "S"),
    content := bigContentEx, next := some [], tags := [] }

/-- Witness for C10: migrating the oversized fixture records under
legacy id "9" the continuation's post id 21 (second submission of the
oracle), not the first chunk's main post id 30. -/
theorem C10_split_continuation_overwrites_witness :
    List.lookup (str "9")
        (migrateTetraPost cfgEx oracleEx 2 (some []) (str "9") topicStartEx {}).1.pidMap =
      some 21 ∧
    List.lookup (str "9")
        (migrateTetraPost cfgEx oracleEx 2 (some []) (str "9") topicStartEx {}).1.pidMap ≠
      some 30 := by
  have hsplit : splitContent bigContentEx =
      (List.replicate 31000 'a', some ('\n' :: List.replicate 1500 'b')) :=
    splitContent_single_newline (by decide) (by decide) (by decide)
  have hlen : ('\n' :: List.replicate 1500 'b' : Str).length = 1501 := by
    rw [List.length_cons, List.length_replicate]
  have h := C10_split_continuation_overwrites cfgEx oracleEx 0 (some []) (str "9")
    topicStartEx {} (List.replicate 31000 'a') ('\n' :: List.replicate 1500 'b')
    rfl rfl hsplit (by rw [hlen]; norm_num) (by rw [hlen]; norm_num [maxPostLength])
    (by norm_num [oracleEx]) (by norm_num [oracleEx])
  constructor
  · have h1 := h.2.1
    simp only [oracleEx] at h1
    convert h1 using 2
  · have h2 := h.2.2
    simp only [oracleEx] at h2
    convert h2 using 3

end Tetra

